import Mathlib

/-!
Shallow embedding of the runtime shape-validator in src/jollyqol/tensors.py.

The decorator factory there, through its inner closure, performs at each call
of the wrapped function:
  1. collection: for every declared (name, pattern) pair, check the name is a
     parameter of the callable and the bound value has a shape attribute,
     recording (name, pattern, actual shape);
  2. unification: for every collected triple, check the dimension counts and
     unify each checked (token, actual value) pair, accumulating a global
     exact-mismatch flag, a wildcard binding table, and the set of
     count-mismatched names;
  3. decision and rendering: either invoke the wrapped function or raise a
     single ValueError carrying a rendered diagnostic.

Python machine integers, tuples, dicts and sets become Nat, List, association
lists and duplicate-free lists; raising becomes Except.
-/

set_option autoImplicit false

namespace Jollyqol

/-- A dimension token of a shape pattern: the Python type int | str | type(...)
restricted as the code uses it (non-negative exact size, wildcard label, or the
ellipsis open-run marker). -/
inductive EDim where
  | exact (n : Nat)
  | wild (label : String)
  | ellip
  deriving DecidableEq, Repr

/-- The Python exception surfaced to the caller: every deliberate raise in the
source is a ValueError carrying a message; typing.assert_never raises an
AssertionError if its unreachable branch is ever executed. -/
inductive PyExc where
  | valueError (msg : String)
  | assertionError (msg : String)
  deriving DecidableEq, Repr

/-- The mutable validation state of one pass of sizes_wrapper: the
exacts_good flag, the wildcards dict (label to set of observed values, the
set kept as a duplicate-free list), and the shape_mismatch_tensor_names set
(kept as a list in insertion order). -/
structure UState where
  exacts_good : Bool
  wildcards : List (String × List Nat)
  mismatches : List String
  deriving DecidableEq, Repr

/-- The state at the start of a validation pass. -/
def initState : UState := UState.mk true [] []

/-- wildcards.setdefault(label, set()).add(adim): insert a value into the set
bound to a label, creating the entry if the label is new. -/
def add_binding : List (String × List Nat) → String → Nat → List (String × List Nat)
  | [], l, v => [(l, [v])]
  | (k, vs) :: rest, l, v =>
    if k = l then (k, vs.insert v) :: rest else (k, vs) :: add_binding rest l v

/-- Dict lookup of the value set bound to a label, the empty set if absent. -/
def lookup_set : List (String × List Nat) → String → List Nat
  | [], _ => []
  | (k, vs) :: rest, l => if k = l then vs else lookup_set rest l

/-- unify_dim from the source: an exact token clears exacts_good when it
differs from the actual value, a wildcard token records the actual value in
its binding set, and the ellipsis branch is the assert_never arm. -/
def unify_dim (edim : EDim) (adim : Nat) (st : UState) : Except PyExc UState :=
  match edim with
  | EDim.exact n =>
    Except.ok (UState.mk (if n ≠ adim then false else st.exacts_good) st.wildcards st.mismatches)
  | EDim.wild l =>
    Except.ok (UState.mk st.exacts_good (add_binding st.wildcards l adim) st.mismatches)
  | EDim.ellip => Except.error (PyExc.assertionError "Expected code to be unreachable")

/-- Unify a list of (token, actual value) pairs left to right, as the loops in
sizes_wrapper call unify_dim on successive pairs. -/
def unify_list : List (EDim × Nat) → UState → Except PyExc UState
  | [], st => Except.ok st
  | (e, a) :: rest, st =>
    match unify_dim e a st with
    | Except.error ex => Except.error ex
    | Except.ok st1 => unify_list rest st1

/-- The body of the per-tensor loop of sizes_wrapper: dimension-count checks,
the one-ellipsis guard, and unification of the checked positions. -/
def process_tensor (name : String) (pat : List EDim) (actual : List Nat) (st : UState) :
    Except PyExc UState :=
  if EDim.ellip ∉ pat then
    if pat.length ≠ actual.length then
      Except.ok (UState.mk st.exacts_good st.wildcards (st.mismatches ++ [name]))
    else
      unify_list (pat.zip actual) st
  else
    if pat.count EDim.ellip > 1 then
      Except.error (PyExc.valueError "@sizes: Only one ellipsis allowed per shape specification.")
    else
      let i := pat.indexOf EDim.ellip
      let pre := pat.take i
      let suf := pat.drop (i + 1)
      if pre.length + suf.length > actual.length then
        Except.ok (UState.mk st.exacts_good st.wildcards (st.mismatches ++ [name]))
      else
        match unify_list (pre.zip (actual.take pre.length)) st with
        | Except.error ex => Except.error ex
        | Except.ok st1 =>
          if 0 < suf.length then
            unify_list ((suf.zip (actual.drop (actual.length - suf.length))).reverse) st1
          else
            Except.ok st1

/-- The loop over collected_tensors.items() running process_tensor on each
triple in declaration order. -/
def run_unify : List (String × List EDim × List Nat) → UState → Except PyExc UState
  | [], st => Except.ok st
  | (n, p, a) :: rest, st =>
    match process_tensor n p a st with
    | Except.error ex => Except.error ex
    | Except.ok st1 => run_unify rest st1

/-- The collection loop of sizes_wrapper: for each declared name, raise if the
name is not a parameter of the callable, raise if the bound value reports no
shape, else record (name, pattern, actual shape). -/
def collect_tensors (params : List String) (argShape : String → Option (List Nat)) :
    List (String × List EDim) → Except PyExc (List (String × List EDim × List Nat))
  | [] => Except.ok []
  | (name, pat) :: rest =>
    if name ∉ params then
      Except.error (PyExc.valueError
        ("@sizes: Function is missing Tensor argument " ++ name ++ "."))
    else
      match argShape name with
      | none =>
        Except.error (PyExc.valueError
          ("@sizes: Expected tensor-like object, but " ++ name ++ " has no shape attribute."))
      | some shape =>
        match collect_tensors params argShape rest with
        | Except.error ex => Except.error ex
        | Except.ok rest1 => Except.ok ((name, pat, shape) :: rest1)

/-- The inconsistent_wildcards set: labels whose binding set does not have
exactly one element. -/
def inconsistent_wildcards (ws : List (String × List Nat)) : List String :=
  (ws.filter (fun p => p.2.length ≠ 1)).map Prod.fst

/-- One rendered position of the diagnostic: the actual value when an exact
token matched, declared=actual highlighted on an exact mismatch or an
inconsistent wildcard, the bare label otherwise; the final arm mirrors the
renderer's catch-all case. -/
def render_dim (incons : List String) (edim : EDim) (adim : Nat) : String :=
  match edim with
  | EDim.exact n =>
    if n ≠ adim then toString n ++ "\x1b[0;31m=" ++ toString adim ++ "\x1b[0m"
    else toString adim
  | EDim.wild l =>
    if l ∈ incons then l ++ "\x1b[0;31m=" ++ toString adim ++ "\x1b[0m"
    else l
  | EDim.ellip => "Ellipsis?"

/-- The per-tensor detail line of the diagnostic, built exactly as the second
rendering pass of sizes_wrapper builds it. -/
def render_tensor (incons : List String) (name : String) (pat : List EDim) (actual : List Nat) :
    String :=
  let parts :=
    if EDim.ellip ∉ pat then
      if pat.length ≠ actual.length then
        ["Expected " ++ toString pat.length ++ " dims, got " ++ toString actual.length ++ " dims."]
      else
        (pat.zip actual).map (fun p => render_dim incons p.1 p.2)
    else
      let i := pat.indexOf EDim.ellip
      let pre := pat.take i
      let suf := pat.drop (i + 1)
      let preParts := (pre.zip (actual.take pre.length)).map (fun p => render_dim incons p.1 p.2)
      let sufParts :=
        if pre.length + suf.length > actual.length then
          ["\x1b[0;31m(Suffix mismatch?)\x1b[0m"]
        else
          (suf.zip (actual.drop (actual.length - suf.length))).map
            (fun p => render_dim incons p.1 p.2)
      preParts ++ ["..."] ++ sufParts
  name ++ ": (" ++ String.intercalate "," parts ++ ")"

/-- The tensor_strings list: one detail line per collected tensor, in
collection order. -/
def tensor_strings (incons : List String)
    (collected : List (String × List EDim × List Nat)) : List String :=
  collected.map (fun t => render_tensor incons t.1 t.2.1 t.2.2)

/-- The final_error_msg string assembled on rejection: headline parts for
count mismatches, inconsistent wildcards and the exact-mismatch flag, then
the per-tensor detail lines. -/
def error_message (st : UState) (collected : List (String × List EDim × List Nat)) : String :=
  let incons := inconsistent_wildcards st.wildcards
  let msgs :=
    (if st.mismatches.isEmpty then []
     else ["Tensor(s) had different # of dims than expected: "
            ++ String.intercalate ", " st.mismatches])
    ++ (if incons.isEmpty then []
        else ["Inconsistent wildcard(s): " ++ String.intercalate ", " incons])
    ++ (if st.exacts_good then [] else ["Static dims do not match."])
  "@sizes: " ++ String.intercalate "; " msgs ++ "\n  "
    ++ String.intercalate "\n  " (tensor_strings incons collected)

/-- The whole validation pass of one call: collection, unification, and the
accept/reject decision with message rendering. -/
def run_sizes (params : List String) (argShape : String → Option (List Nat))
    (decls : List (String × List EDim)) : Except PyExc Unit :=
  match collect_tensors params argShape decls with
  | Except.error ex => Except.error ex
  | Except.ok collected =>
    match run_unify collected initState with
    | Except.error ex => Except.error ex
    | Except.ok st =>
      if !st.exacts_good || !st.mismatches.isEmpty
          || !(inconsistent_wildcards st.wildcards).isEmpty then
        Except.error (PyExc.valueError (error_message st collected))
      else
        Except.ok ()

/-- sizes_wrapper: validate the call, then either invoke the wrapped callable
on the resolved arguments and return its result, or propagate the error. The
argument binding is abstracted as a map from parameter name to value, and a
value's shape attribute as shapeOf. -/
def sizes_wrapper {V R : Type} (shapeOf : V → Option (List Nat)) (params : List String)
    (decls : List (String × List EDim)) (func : (String → V) → R) (args : String → V) :
    Except PyExc R :=
  match run_sizes params (fun n => shapeOf (args n)) decls with
  | Except.error ex => Except.error ex
  | Except.ok _ => Except.ok (func args)

/-- Whether the dimension-count check of process_tensor records this
(pattern, actual) pair as a mismatch. -/
def count_mismatch (pat : List EDim) (actual : List Nat) : Bool :=
  if EDim.ellip ∉ pat then
    decide (pat.length ≠ actual.length)
  else
    decide ((pat.take (pat.indexOf EDim.ellip)).length
      + (pat.drop (pat.indexOf EDim.ellip + 1)).length > actual.length)

/-- The (token, actual value) pairs that one argument contributes to
unification: the aligned pairs when the count check passes, nothing when it
fails. -/
def checked_pairs (pat : List EDim) (actual : List Nat) : List (EDim × Nat) :=
  if EDim.ellip ∉ pat then
    if pat.length = actual.length then pat.zip actual else []
  else
    let i := pat.indexOf EDim.ellip
    let pre := pat.take i
    let suf := pat.drop (i + 1)
    if pre.length + suf.length > actual.length then []
    else pre.zip (actual.take pre.length)
      ++ suf.zip (actual.drop (actual.length - suf.length))

/-- Whether a checked pair is free of an exact mismatch. -/
def exact_ok : EDim × Nat → Bool
  | (EDim.exact n, a) => n == a
  | _ => true

/-- The shape the collection pass reads for a declared name. -/
def actual_of {V : Type} (shapeOf : V → Option (List Nat)) (args : String → V)
    (name : String) : List Nat :=
  (shapeOf (args name)).getD []

/-- A wildcard label observes a value in this call: some declared argument
unifies that label against that actual value. -/
def bound_value {V : Type} (shapeOf : V → Option (List Nat)) (args : String → V)
    (decls : List (String × List EDim)) (l : String) (v : Nat) : Prop :=
  ∃ d ∈ decls, (EDim.wild l, v) ∈ checked_pairs d.2 (actual_of shapeOf args d.1)

/-- The structural invariant of the wildcards dict: keys are distinct and
every binding set is a non-empty duplicate-free list. -/
def WSInv (ws : List (String × List Nat)) : Prop :=
  (ws.map Prod.fst).Nodup ∧ ∀ p ∈ ws, p.2 ≠ [] ∧ p.2.Nodup

theorem mem_lookup_add (ws : List (String × List Nat)) (l : String) (v : Nat)
    (l' : String) (x : Nat) :
    x ∈ lookup_set (add_binding ws l v) l' ↔ (l' = l ∧ x = v) ∨ x ∈ lookup_set ws l' := by
  induction ws with
  | nil =>
    by_cases h : l = l'
    · subst h
      simp [add_binding, lookup_set]
    · have h2 : ¬ l' = l := fun hh => h hh.symm
      simp [add_binding, lookup_set, h, h2]
  | cons p rest ih =>
    obtain ⟨k, vs⟩ := p
    simp only [add_binding]
    by_cases hkl : k = l
    · subst hkl
      rw [if_pos rfl]
      by_cases hk2 : k = l'
      · subst hk2
        simp [lookup_set, List.mem_insert_iff]
      · have h2 : ¬ l' = k := fun hh => hk2 hh.symm
        simp [lookup_set, hk2, h2]
    · rw [if_neg hkl]
      by_cases hk2 : k = l'
      · subst hk2
        simp [lookup_set, hkl]
      · simp [lookup_set, hk2, ih]

theorem mem_keys_add (ws : List (String × List Nat)) (l : String) (v : Nat) (x : String) :
    x ∈ (add_binding ws l v).map Prod.fst ↔ x ∈ ws.map Prod.fst ∨ x = l := by
  induction ws with
  | nil => simp [add_binding]
  | cons p rest ih =>
    obtain ⟨k, vs⟩ := p
    simp only [add_binding]
    by_cases hkl : k = l
    · subst hkl
      rw [if_pos rfl]
      simp only [List.map_cons, List.mem_cons]
      tauto
    · rw [if_neg hkl]
      simp only [List.map_cons, List.mem_cons, ih]
      tauto

theorem keys_nodup_add (ws : List (String × List Nat)) (l : String) (v : Nat)
    (h : (ws.map Prod.fst).Nodup) : ((add_binding ws l v).map Prod.fst).Nodup := by
  induction ws with
  | nil => simp [add_binding]
  | cons p rest ih =>
    obtain ⟨k, vs⟩ := p
    simp only [List.map_cons, List.nodup_cons] at h
    simp only [add_binding]
    by_cases hkl : k = l
    · rw [if_pos hkl]
      simp only [List.map_cons, List.nodup_cons]
      exact ⟨h.1, h.2⟩
    · rw [if_neg hkl]
      simp only [List.map_cons, List.nodup_cons]
      constructor
      · intro hk
        rcases (mem_keys_add rest l v k).mp hk with hk | hk
        · exact h.1 hk
        · exact hkl hk
      · exact ih h.2

theorem vals_add (ws : List (String × List Nat)) (l : String) (v : Nat)
    (h : ∀ p ∈ ws, p.2 ≠ [] ∧ p.2.Nodup) :
    ∀ p ∈ add_binding ws l v, p.2 ≠ [] ∧ p.2.Nodup := by
  induction ws with
  | nil =>
    intro p hp
    simp only [add_binding, List.mem_singleton] at hp
    subst hp
    exact ⟨by simp, by simp⟩
  | cons q rest ih =>
    obtain ⟨k, vs⟩ := q
    have hrest : ∀ p ∈ rest, p.2 ≠ [] ∧ p.2.Nodup :=
      fun p hp => h p (List.mem_cons_of_mem _ hp)
    have hhead := h (k, vs) (List.mem_cons_self _ _)
    intro p hp
    simp only [add_binding] at hp
    by_cases hkl : k = l
    · rw [if_pos hkl] at hp
      rcases List.mem_cons.mp hp with hp | hp
      · subst hp
        exact ⟨List.ne_nil_of_mem (List.mem_insert_self v vs), hhead.2.insert⟩
      · exact hrest p hp
    · rw [if_neg hkl] at hp
      rcases List.mem_cons.mp hp with hp | hp
      · subst hp
        exact hhead
      · exact ih hrest p hp

theorem WSInv_add (ws : List (String × List Nat)) (l : String) (v : Nat)
    (h : WSInv ws) : WSInv (add_binding ws l v) :=
  ⟨keys_nodup_add ws l v h.1, vals_add ws l v h.2⟩

theorem lookup_set_of_mem (ws : List (String × List Nat)) (l : String) (vs : List Nat)
    (hnd : (ws.map Prod.fst).Nodup) (h : (l, vs) ∈ ws) : lookup_set ws l = vs := by
  induction ws with
  | nil => simp at h
  | cons p rest ih =>
    obtain ⟨k, kvs⟩ := p
    simp only [List.map_cons, List.nodup_cons] at hnd
    rcases List.mem_cons.mp h with h | h
    · simp only [Prod.mk.injEq] at h
      obtain ⟨h1, h2⟩ := h
      subst h1
      subst h2
      simp [lookup_set]
    · have hkl : ¬ k = l := by
        intro hk
        subst hk
        exact hnd.1 (by simpa using ⟨vs, h⟩)
      simp [lookup_set, hkl, ih hnd.2 h]

theorem entry_of_lookup_ne_nil (ws : List (String × List Nat)) (l : String)
    (h : lookup_set ws l ≠ []) : (l, lookup_set ws l) ∈ ws := by
  induction ws with
  | nil => simp [lookup_set] at h
  | cons p rest ih =>
    obtain ⟨k, vs⟩ := p
    by_cases hkl : k = l
    · subst hkl
      simp [lookup_set]
    · simp only [lookup_set, if_neg hkl] at h ⊢
      exact List.mem_cons_of_mem _ (ih h)

theorem inconsistent_iff (ws : List (String × List Nat)) (l : String) (h : WSInv ws) :
    l ∈ inconsistent_wildcards ws ↔
      ∃ a b, a ∈ lookup_set ws l ∧ b ∈ lookup_set ws l ∧ a ≠ b := by
  obtain ⟨hnd, hval⟩ := h
  constructor
  · intro hin
    simp only [inconsistent_wildcards, List.mem_map] at hin
    obtain ⟨p, hp, hfst⟩ := hin
    obtain ⟨hpmem, hplen⟩ := List.mem_filter.mp hp
    obtain ⟨k, vs⟩ := p
    simp only at hfst
    subst hfst
    have hlk : lookup_set ws k = vs := lookup_set_of_mem ws k vs hnd hpmem
    have hv := hval (k, vs) hpmem
    simp only [decide_eq_true_eq] at hplen
    rcases vs with _ | ⟨x, vs2⟩
    · exact absurd rfl hv.1
    rcases vs2 with _ | ⟨y, t⟩
    · exact absurd rfl hplen
    refine ⟨x, y, ?_, ?_, ?_⟩
    · rw [hlk]; simp
    · rw [hlk]; simp
    · intro hxy
      subst hxy
      exact (List.nodup_cons.mp hv.2).1 (List.mem_cons_self x t)
  · rintro ⟨a, b, ha, hb, hab⟩
    have hne : lookup_set ws l ≠ [] := List.ne_nil_of_mem ha
    have hmem := entry_of_lookup_ne_nil ws l hne
    simp only [inconsistent_wildcards, List.mem_map]
    refine ⟨(l, lookup_set ws l), List.mem_filter.mpr ⟨hmem, ?_⟩, rfl⟩
    simp only [decide_eq_true_eq]
    intro hlen
    obtain ⟨x, hx⟩ := List.length_eq_one.mp hlen
    rw [hx] at ha hb
    simp at ha hb
    exact hab (ha.trans hb.symm)

theorem unify_list_ok (ps : List (EDim × Nat)) :
    ∀ st : UState, (∀ p ∈ ps, p.1 ≠ EDim.ellip) →
    ∃ st1, unify_list ps st = Except.ok st1
      ∧ st1.exacts_good = (st.exacts_good && ps.all exact_ok)
      ∧ st1.mismatches = st.mismatches
      ∧ (∀ l x, x ∈ lookup_set st1.wildcards l ↔
          x ∈ lookup_set st.wildcards l ∨ (EDim.wild l, x) ∈ ps)
      ∧ (WSInv st.wildcards → WSInv st1.wildcards) := by
  induction ps with
  | nil =>
    intro st _
    exact ⟨st, rfl, by simp, rfl, by simp, fun hw => hw⟩
  | cons p rest ih =>
    intro st h
    obtain ⟨e, a⟩ := p
    have hrest : ∀ q ∈ rest, q.1 ≠ EDim.ellip := fun q hq => h q (List.mem_cons_of_mem _ hq)
    cases e with
    | exact n =>
      obtain ⟨st1, he, hg, hm, hb, hw⟩ :=
        ih (UState.mk (if n ≠ a then false else st.exacts_good) st.wildcards st.mismatches) hrest
      refine ⟨st1, ?_, ?_, ?_, ?_, ?_⟩
      · simpa only [unify_list, unify_dim] using he
      · rw [hg]
        by_cases hna : n = a
        · subst hna
          simp [exact_ok]
        · simp [hna, exact_ok]
      · exact hm
      · intro l x
        rw [hb l x]
        simp [List.mem_cons]
      · exact hw
    | wild lb =>
      obtain ⟨st1, he, hg, hm, hb, hw⟩ :=
        ih (UState.mk st.exacts_good (add_binding st.wildcards lb a) st.mismatches) hrest
      refine ⟨st1, ?_, ?_, ?_, ?_, ?_⟩
      · simpa only [unify_list, unify_dim] using he
      · rw [hg]
        simp [exact_ok]
      · exact hm
      · intro l x
        rw [hb l x]
        simp only [mem_lookup_add, List.mem_cons, Prod.mk.injEq, EDim.wild.injEq]
        tauto
      · exact fun hws => hw (WSInv_add _ _ _ hws)
    | ellip => exact absurd rfl (h (EDim.ellip, a) (List.mem_cons_self _ _))

theorem unify_list_append (xs ys : List (EDim × Nat)) (st : UState) :
    unify_list (xs ++ ys) st =
      match unify_list xs st with
      | Except.error ex => Except.error ex
      | Except.ok st1 => unify_list ys st1 := by
  induction xs generalizing st with
  | nil => rfl
  | cons p rest ih =>
    obtain ⟨e, a⟩ := p
    simp only [List.cons_append, unify_list]
    cases unify_dim e a st with
    | error ex => rfl
    | ok st1 => exact ih st1

theorem exists_ellip_split (pat : List EDim) (h : EDim.ellip ∈ pat) :
    ∃ pre suf, pat = pre ++ EDim.ellip :: suf ∧ EDim.ellip ∉ pre := by
  induction pat with
  | nil => simp at h
  | cons e rest ih =>
    by_cases he : e = EDim.ellip
    · subst he
      exact ⟨[], rest, rfl, by simp⟩
    · have hr : EDim.ellip ∈ rest := by
        rcases List.mem_cons.mp h with h | h
        · exact absurd h.symm he
        · exact h
      obtain ⟨pre, suf, heq, hpre⟩ := ih hr
      refine ⟨e :: pre, suf, by rw [heq]; rfl, ?_⟩
      simp only [List.mem_cons]
      rintro (hh | hh)
      · exact he hh.symm
      · exact hpre hh

theorem count_suf_zero (pre suf : List EDim)
    (h : (pre ++ EDim.ellip :: suf).count EDim.ellip ≤ 1) : EDim.ellip ∉ suf := by
  rw [List.count_append, List.count_cons_self] at h
  have : suf.count EDim.ellip = 0 := by omega
  exact List.count_eq_zero.mp this

theorem count_split_one (pre suf : List EDim) (hpre : EDim.ellip ∉ pre)
    (hsuf : EDim.ellip ∉ suf) : (pre ++ EDim.ellip :: suf).count EDim.ellip = 1 := by
  rw [List.count_append, List.count_cons_self, List.count_eq_zero.mpr hpre,
    List.count_eq_zero.mpr hsuf]

theorem ellip_split (pre suf : List EDim) (h : EDim.ellip ∉ pre) :
    (pre ++ EDim.ellip :: suf).indexOf EDim.ellip = pre.length
    ∧ (pre ++ EDim.ellip :: suf).take pre.length = pre
    ∧ (pre ++ EDim.ellip :: suf).drop (pre.length + 1) = suf := by
  refine ⟨?_, List.take_left pre _, ?_⟩
  · rw [List.indexOf_append_of_not_mem h, List.indexOf_cons_self]
    rfl
  · have h1 : (pre ++ EDim.ellip :: suf).drop pre.length = EDim.ellip :: suf :=
      List.drop_left pre _
    rw [← List.drop_drop, h1]
    rfl

theorem count_mismatch_plain (pat : List EDim) (actual : List Nat) (h : EDim.ellip ∉ pat) :
    count_mismatch pat actual = decide (pat.length ≠ actual.length) := by
  simp only [count_mismatch, if_pos h]

theorem checked_pairs_plain (pat : List EDim) (actual : List Nat) (h : EDim.ellip ∉ pat) :
    checked_pairs pat actual =
      if pat.length = actual.length then pat.zip actual else [] := by
  simp only [checked_pairs, if_pos h]

theorem count_mismatch_split (pre suf : List EDim) (actual : List Nat)
    (hpre : EDim.ellip ∉ pre) :
    count_mismatch (pre ++ EDim.ellip :: suf) actual
      = decide (pre.length + suf.length > actual.length) := by
  have hmem : EDim.ellip ∈ pre ++ EDim.ellip :: suf := by simp
  obtain ⟨hidx, htake, hdrop⟩ := ellip_split pre suf hpre
  simp only [count_mismatch, if_neg (not_not_intro hmem), hidx, htake, hdrop]

theorem checked_pairs_split (pre suf : List EDim) (actual : List Nat)
    (hpre : EDim.ellip ∉ pre) :
    checked_pairs (pre ++ EDim.ellip :: suf) actual =
      if pre.length + suf.length > actual.length then []
      else pre.zip (actual.take pre.length)
        ++ suf.zip (actual.drop (actual.length - suf.length)) := by
  have hmem : EDim.ellip ∈ pre ++ EDim.ellip :: suf := by simp
  obtain ⟨hidx, htake, hdrop⟩ := ellip_split pre suf hpre
  simp only [checked_pairs, if_neg (not_not_intro hmem), hidx, htake, hdrop]

theorem process_tensor_split (name : String) (pre suf : List EDim) (actual : List Nat)
    (st : UState) (hpre : EDim.ellip ∉ pre) (hsuf : EDim.ellip ∉ suf) :
    process_tensor name (pre ++ EDim.ellip :: suf) actual st =
      if pre.length + suf.length > actual.length then
        Except.ok (UState.mk st.exacts_good st.wildcards (st.mismatches ++ [name]))
      else
        match unify_list (pre.zip (actual.take pre.length)) st with
        | Except.error ex => Except.error ex
        | Except.ok st1 =>
          if 0 < suf.length then
            unify_list ((suf.zip (actual.drop (actual.length - suf.length))).reverse) st1
          else
            Except.ok st1 := by
  have hmem : EDim.ellip ∈ pre ++ EDim.ellip :: suf := by simp
  have hcount := count_split_one pre suf hpre hsuf
  have hguard : ¬ ((pre ++ EDim.ellip :: suf).count EDim.ellip > 1) := by omega
  obtain ⟨hidx, htake, hdrop⟩ := ellip_split pre suf hpre
  simp only [process_tensor, if_neg (not_not_intro hmem), if_neg hguard, hidx, htake, hdrop]

theorem process_tensor_ok (name : String) (pat : List EDim) (actual : List Nat) (st : UState)
    (h : pat.count EDim.ellip ≤ 1) :
    ∃ st1, process_tensor name pat actual st = Except.ok st1
      ∧ st1.exacts_good = (st.exacts_good && (checked_pairs pat actual).all exact_ok)
      ∧ st1.mismatches = st.mismatches ++ (if count_mismatch pat actual then [name] else [])
      ∧ (∀ l x, x ∈ lookup_set st1.wildcards l ↔
          x ∈ lookup_set st.wildcards l ∨ (EDim.wild l, x) ∈ checked_pairs pat actual)
      ∧ (WSInv st.wildcards → WSInv st1.wildcards) := by
  by_cases hmem : EDim.ellip ∈ pat
  · obtain ⟨pre, suf, rfl, hpre⟩ := exists_ellip_split pat hmem
    have hsuf : EDim.ellip ∉ suf := count_suf_zero pre suf h
    rw [process_tensor_split name pre suf actual st hpre hsuf,
      checked_pairs_split pre suf actual hpre, count_mismatch_split pre suf actual hpre]
    by_cases hct : pre.length + suf.length > actual.length
    · rw [if_pos hct, if_pos hct, if_pos (by simpa using hct)]
      refine ⟨UState.mk st.exacts_good st.wildcards (st.mismatches ++ [name]),
        rfl, by simp, rfl, by simp, fun hw => hw⟩
    · rw [if_neg hct, if_neg hct, if_neg (by simpa using hct)]
      have hpreTok : ∀ p ∈ pre.zip (actual.take pre.length), p.1 ≠ EDim.ellip := by
        intro p hp he
        exact hpre (he ▸ (List.of_mem_zip hp).1)
      have hsufTok : ∀ p ∈ (suf.zip (actual.drop (actual.length - suf.length))).reverse,
          p.1 ≠ EDim.ellip := by
        intro p hp he
        rw [List.mem_reverse] at hp
        exact hsuf (he ▸ (List.of_mem_zip hp).1)
      obtain ⟨stA, heA, hgA, hmA, hbA, hwA⟩ :=
        unify_list_ok (pre.zip (actual.take pre.length)) st hpreTok
      by_cases hsl : 0 < suf.length
      · obtain ⟨stB, heB, hgB, hmB, hbB, hwB⟩ :=
          unify_list_ok ((suf.zip (actual.drop (actual.length - suf.length))).reverse)
            stA hsufTok
        refine ⟨stB, ?_, ?_, ?_, ?_, ?_⟩
        · simp only [heA, if_pos hsl]
          exact heB
        · rw [hgB, hgA, List.all_reverse, List.all_append, Bool.and_assoc]
        · rw [hmB, hmA, List.append_nil]
        · intro l x
          rw [hbB l x, hbA l x, List.mem_reverse, List.mem_append]
          tauto
        · exact fun hw => hwB (hwA hw)
      · have hnil : suf = [] := by
          cases suf with
          | nil => rfl
          | cons a t => exact absurd (by simp) hsl
        subst hnil
        refine ⟨stA, ?_, ?_, ?_, ?_, hwA⟩
        · simp only [heA, if_neg hsl]
        · rw [hgA]
          simp
        · rw [hmA, List.append_nil]
        · intro l x
          rw [hbA l x]
          simp
  · rw [count_mismatch_plain pat actual hmem, checked_pairs_plain pat actual hmem]
    by_cases hlen : pat.length = actual.length
    · have hne : ¬ pat.length ≠ actual.length := not_not_intro hlen
      have hTok : ∀ p ∈ pat.zip actual, p.1 ≠ EDim.ellip := by
        intro p hp he
        exact hmem (he ▸ (List.of_mem_zip hp).1)
      obtain ⟨st1, he1, hg1, hm1, hb1, hw1⟩ := unify_list_ok (pat.zip actual) st hTok
      refine ⟨st1, ?_, ?_, ?_, ?_, hw1⟩
      · simpa only [process_tensor, if_pos hmem, if_neg hne] using he1
      · rw [hg1, if_pos hlen]
      · rw [hm1]
        simp [hlen]
      · intro l x
        rw [hb1 l x, if_pos hlen]
    · refine ⟨UState.mk st.exacts_good st.wildcards (st.mismatches ++ [name]), ?_, ?_, ?_, ?_,
        fun hw => hw⟩
      · simp only [process_tensor, if_pos hmem, if_neg hlen, if_pos hlen]
      · rw [if_neg hlen]
        simp
      · simp [hlen]
      · intro l x
        rw [if_neg hlen]
        simp

theorem run_unify_ok (ts : List (String × List EDim × List Nat)) :
    ∀ st : UState, (∀ t ∈ ts, (t.2.1).count EDim.ellip ≤ 1) →
    ∃ st1, run_unify ts st = Except.ok st1
      ∧ st1.exacts_good
          = (st.exacts_good && ts.all (fun t => (checked_pairs t.2.1 t.2.2).all exact_ok))
      ∧ st1.mismatches = st.mismatches
          ++ (ts.filter (fun t => count_mismatch t.2.1 t.2.2)).map Prod.fst
      ∧ (∀ l x, x ∈ lookup_set st1.wildcards l ↔
          x ∈ lookup_set st.wildcards l
            ∨ ∃ t ∈ ts, (EDim.wild l, x) ∈ checked_pairs t.2.1 t.2.2)
      ∧ (WSInv st.wildcards → WSInv st1.wildcards) := by
  induction ts with
  | nil =>
    intro st _
    exact ⟨st, rfl, by simp, by simp, by simp, fun hw => hw⟩
  | cons t rest ih =>
    intro st h
    obtain ⟨n, p, a⟩ := t
    have hh := h (n, p, a) (List.mem_cons_self _ _)
    have hr : ∀ q ∈ rest, (q.2.1).count EDim.ellip ≤ 1 :=
      fun q hq => h q (List.mem_cons_of_mem _ hq)
    obtain ⟨stA, heA, hgA, hmA, hbA, hwA⟩ := process_tensor_ok n p a st hh
    obtain ⟨stB, heB, hgB, hmB, hbB, hwB⟩ := ih stA hr
    refine ⟨stB, ?_, ?_, ?_, ?_, fun hw => hwB (hwA hw)⟩
    · simp only [run_unify, heA]
      exact heB
    · rw [hgB, hgA, List.all_cons, Bool.and_assoc]
    · rw [hmB, hmA, List.append_assoc]
      congr 1
      rw [List.filter_cons]
      by_cases hcm : count_mismatch p a
      · simp [hcm]
      · simp [hcm]
    · intro l x
      rw [hbB l x, hbA l x]
      simp only [List.exists_mem_cons_iff]
      tauto

theorem collect_ok (params : List String) (argShape : String → Option (List Nat))
    (decls : List (String × List EDim))
    (h : ∀ d ∈ decls, d.1 ∈ params ∧ (argShape d.1).isSome) :
    collect_tensors params argShape decls
      = Except.ok (decls.map (fun d => (d.1, d.2, (argShape d.1).getD []))) := by
  induction decls with
  | nil => rfl
  | cons d rest ih =>
    obtain ⟨name, pat⟩ := d
    obtain ⟨hp, hs⟩ := h (name, pat) (List.mem_cons_self _ _)
    obtain ⟨shape, hsh⟩ := Option.isSome_iff_exists.mp hs
    have hrest := ih (fun q hq => h q (List.mem_cons_of_mem _ hq))
    simp [collect_tensors, hp, hsh, hrest]

theorem collect_err_of_unknown (params : List String) (argShape : String → Option (List Nat))
    (decls : List (String × List EDim)) (q : String) (pq : List EDim)
    (hmem : (q, pq) ∈ decls) (h : q ∉ params) :
    ∃ e, collect_tensors params argShape decls = Except.error e := by
  induction decls with
  | nil => simp at hmem
  | cons d rest ih =>
    obtain ⟨k, kp⟩ := d
    by_cases hk : k ∉ params
    · exact ⟨PyExc.valueError ("@sizes: Function is missing Tensor argument " ++ k ++ "."),
        by simp [collect_tensors, hk]⟩
    · have hkmem : k ∈ params := not_not.mp hk
      have hqr : (q, pq) ∈ rest := by
        rcases List.mem_cons.mp hmem with hm | hm
        · simp only [Prod.mk.injEq] at hm
          exact absurd (hm.1 ▸ hkmem) h
        · exact hm
      cases hsh : argShape k with
      | none =>
        exact ⟨PyExc.valueError
            ("@sizes: Expected tensor-like object, but " ++ k ++ " has no shape attribute."),
          by simp [collect_tensors, hkmem, hsh]⟩
      | some shape =>
        obtain ⟨e, he⟩ := ih hqr
        exact ⟨e, by simp [collect_tensors, hkmem, hsh, he]⟩

theorem collect_unknown_first (params : List String) (argShape : String → Option (List Nat))
    (ds1 : List (String × List EDim)) (q : String) (pq : List EDim)
    (ds2 : List (String × List EDim))
    (h1 : ∀ d ∈ ds1, d.1 ∈ params ∧ (argShape d.1).isSome) (h2 : q ∉ params) :
    collect_tensors params argShape (ds1 ++ (q, pq) :: ds2)
      = Except.error (PyExc.valueError
          ("@sizes: Function is missing Tensor argument " ++ q ++ ".")) := by
  induction ds1 with
  | nil => simp [collect_tensors, h2]
  | cons d rest ih =>
    obtain ⟨name, pat⟩ := d
    obtain ⟨hp, hs⟩ := h1 (name, pat) (List.mem_cons_self _ _)
    obtain ⟨shape, hsh⟩ := Option.isSome_iff_exists.mp hs
    have hrest := ih (fun x hx => h1 x (List.mem_cons_of_mem _ hx))
    simp [collect_tensors, hp, hsh, hrest]

theorem process_tensor_shape (name : String) (pat : List EDim) (actual : List Nat)
    (st : UState) :
    (∃ st1, process_tensor name pat actual st = Except.ok st1)
    ∨ process_tensor name pat actual st
        = Except.error (PyExc.valueError
            "@sizes: Only one ellipsis allowed per shape specification.") := by
  by_cases h : pat.count EDim.ellip ≤ 1
  · obtain ⟨st1, he, _⟩ := process_tensor_ok name pat actual st h
    exact Or.inl ⟨st1, he⟩
  · have h2 : pat.count EDim.ellip > 1 := by omega
    have hmem : EDim.ellip ∈ pat := List.count_pos_iff.mp (by omega)
    right
    simp only [process_tensor, if_neg (not_not_intro hmem), if_pos h2]

theorem run_unify_shape (ts : List (String × List EDim × List Nat)) :
    ∀ st : UState, (∃ st1, run_unify ts st = Except.ok st1)
      ∨ run_unify ts st = Except.error (PyExc.valueError
          "@sizes: Only one ellipsis allowed per shape specification.") := by
  induction ts with
  | nil => exact fun st => Or.inl ⟨st, rfl⟩
  | cons t rest ih =>
    intro st
    obtain ⟨n, p, a⟩ := t
    rcases process_tensor_shape n p a st with ⟨st1, he⟩ | he
    · rcases ih st1 with ⟨st2, he2⟩ | he2
      · refine Or.inl ⟨st2, ?_⟩
        simp only [run_unify, he]
        exact he2
      · refine Or.inr ?_
        simp only [run_unify, he]
        exact he2
    · exact Or.inr (by simp only [run_unify, he])

theorem run_unify_multi (ts : List (String × List EDim × List Nat)) :
    ∀ st : UState, (∃ t ∈ ts, 2 ≤ (t.2.1).count EDim.ellip) →
    run_unify ts st = Except.error (PyExc.valueError
      "@sizes: Only one ellipsis allowed per shape specification.") := by
  induction ts with
  | nil =>
    intro st h
    simp at h
  | cons t rest ih =>
    intro st h
    obtain ⟨n, p, a⟩ := t
    by_cases hc : p.count EDim.ellip ≤ 1
    · obtain ⟨st1, he, _⟩ := process_tensor_ok n p a st hc
      have hr : ∃ q ∈ rest, 2 ≤ (q.2.1).count EDim.ellip := by
        obtain ⟨q, hq, hq2⟩ := h
        rcases List.mem_cons.mp hq with hq | hq
        · subst hq
          have hcon : ¬ (2 ≤ p.count EDim.ellip) := by omega
          exact absurd hq2 hcon
        · exact ⟨q, hq, hq2⟩
      simp only [run_unify, he]
      exact ih st1 hr
    · have h2 : p.count EDim.ellip > 1 := by omega
      have hmem : EDim.ellip ∈ p := List.count_pos_iff.mp (by omega)
      simp only [run_unify, process_tensor, if_neg (not_not_intro hmem), if_pos h2]

theorem run_sizes_collect_err (params : List String) (argShape : String → Option (List Nat))
    (decls : List (String × List EDim)) (e : PyExc)
    (h : collect_tensors params argShape decls = Except.error e) :
    run_sizes params argShape decls = Except.error e := by
  simp only [run_sizes, h]

theorem run_sizes_eq (params : List String) (argShape : String → Option (List Nat))
    (decls : List (String × List EDim)) (collected : List (String × List EDim × List Nat))
    (st : UState) (hc : collect_tensors params argShape decls = Except.ok collected)
    (hr : run_unify collected initState = Except.ok st) :
    run_sizes params argShape decls =
      if !st.exacts_good || !st.mismatches.isEmpty
          || !(inconsistent_wildcards st.wildcards).isEmpty then
        Except.error (PyExc.valueError (error_message st collected))
      else
        Except.ok () := by
  simp only [run_sizes, hc, hr]

theorem process_tensor_inv (name : String) (pat : List EDim) (actual : List Nat)
    (st st1 : UState) (h : process_tensor name pat actual st = Except.ok st1)
    (hw : WSInv st.wildcards) : WSInv st1.wildcards := by
  by_cases hc : pat.count EDim.ellip ≤ 1
  · obtain ⟨stX, heX, _, _, _, hwX⟩ := process_tensor_ok name pat actual st hc
    rw [heX] at h
    injection h with h
    subst h
    exact hwX hw
  · have h2 : pat.count EDim.ellip > 1 := by omega
    have hmem : EDim.ellip ∈ pat := List.count_pos_iff.mp (by omega)
    simp only [process_tensor, if_neg (not_not_intro hmem), if_pos h2] at h
    exact Except.noConfusion h

theorem run_unify_inv (ts : List (String × List EDim × List Nat)) :
    ∀ st st1 : UState, run_unify ts st = Except.ok st1 →
      WSInv st.wildcards → WSInv st1.wildcards := by
  induction ts with
  | nil =>
    intro st st1 h hw
    injection h with h
    subst h
    exact hw
  | cons t rest ih =>
    intro st st1 h hw
    obtain ⟨n, p, a⟩ := t
    simp only [run_unify] at h
    cases hp : process_tensor n p a st with
    | error ex =>
      rw [hp] at h
      exact Except.noConfusion h
    | ok stA =>
      simp only [hp] at h
      exact ih stA st1 h (process_tensor_inv n p a st stA hp hw)

theorem collect_shape (params : List String) (argShape : String → Option (List Nat))
    (decls : List (String × List EDim)) :
    (∃ c, collect_tensors params argShape decls = Except.ok c)
    ∨ ∃ m, collect_tensors params argShape decls
        = Except.error (PyExc.valueError m) := by
  induction decls with
  | nil => exact Or.inl ⟨[], rfl⟩
  | cons d rest ih =>
    obtain ⟨name, pat⟩ := d
    by_cases hk : name ∉ params
    · exact Or.inr ⟨"@sizes: Function is missing Tensor argument " ++ name ++ ".",
        by simp [collect_tensors, hk]⟩
    · have hkmem : name ∈ params := not_not.mp hk
      cases hsh : argShape name with
      | none =>
        exact Or.inr ⟨"@sizes: Expected tensor-like object, but " ++ name
            ++ " has no shape attribute.",
          by simp [collect_tensors, hkmem, hsh]⟩
      | some shape =>
        rcases ih with ⟨c, hc⟩ | ⟨m, hc⟩
        · exact Or.inl ⟨(name, pat, shape) :: c, by simp [collect_tensors, hkmem, hsh, hc]⟩
        · exact Or.inr ⟨m, by simp [collect_tensors, hkmem, hsh, hc]⟩

/-- C2: for a pattern with exactly one open-run marker, splitting it into a
prefix and a suffix, and an actual shape at least as long as prefix and suffix
combined, sizes_wrapper unifies each prefix token against the actual value at
the same leading index and each suffix token against the actual value at the
same trailing index, and the middle run of actual values is never unified
against anything: the outcome does not depend on the middle values at all. -/
theorem C2_open_run_alignment (name : String) (pre suf : List EDim)
    (lead mid trail : List Nat) (st : UState)
    (h1 : EDim.ellip ∉ pre) (h2 : EDim.ellip ∉ suf)
    (hl : lead.length = pre.length) (ht : trail.length = suf.length) :
    process_tensor name (pre ++ EDim.ellip :: suf) (lead ++ mid ++ trail) st
      = unify_list (pre.zip lead ++ (suf.zip trail).reverse) st
    ∧ ∀ mid2 : List Nat,
        process_tensor name (pre ++ EDim.ellip :: suf) (lead ++ mid2 ++ trail) st
          = process_tensor name (pre ++ EDim.ellip :: suf) (lead ++ mid ++ trail) st := by
  have key : ∀ mid1 : List Nat,
      process_tensor name (pre ++ EDim.ellip :: suf) (lead ++ mid1 ++ trail) st
        = unify_list (pre.zip lead ++ (suf.zip trail).reverse) st := by
    intro mid1
    rw [process_tensor_split name pre suf _ st h1 h2]
    have hct : ¬ (pre.length + suf.length > (lead ++ mid1 ++ trail).length) := by
      simp only [List.length_append]
      omega
    rw [if_neg hct]
    have htk : (lead ++ mid1 ++ trail).take pre.length = lead := by
      rw [← hl, List.append_assoc]
      exact List.take_left lead _
    have hdr : (lead ++ mid1 ++ trail).drop ((lead ++ mid1 ++ trail).length - suf.length)
        = trail := by
      have hlen : (lead ++ mid1 ++ trail).length - suf.length = (lead ++ mid1).length := by
        simp only [List.length_append]
        omega
      rw [hlen]
      exact List.drop_left (lead ++ mid1) trail
    rw [htk, hdr, unify_list_append]
    cases hu : unify_list (pre.zip lead) st with
    | error ex => rfl
    | ok st1 =>
      show (if 0 < suf.length then unify_list ((suf.zip trail).reverse) st1
          else Except.ok st1)
        = unify_list ((suf.zip trail).reverse) st1
      by_cases hsl : 0 < suf.length
      · rw [if_pos hsl]
      · have hnil : suf = [] := by
          cases suf with
          | nil => rfl
          | cons a t => exact absurd (by simp) hsl
        subst hnil
        rw [if_neg hsl]
        rfl
  exact ⟨key mid, fun mid2 => (key mid2).trans (key mid).symm⟩

theorem C2_open_run_alignment_witness :
    process_tensor "y" ([EDim.exact 2] ++ EDim.ellip :: [EDim.wild "N", EDim.exact 5])
        ([2] ++ [7, 8] ++ [9, 5]) initState
      = unify_list ([EDim.exact 2].zip [2]
          ++ ([EDim.wild "N", EDim.exact 5].zip [9, 5]).reverse) initState :=
  (C2_open_run_alignment "y" [EDim.exact 2] [EDim.wild "N", EDim.exact 5]
    [2] [7, 8] [9, 5] initState (by decide) (by decide) (by decide) (by decide)).1

/-- C3: an argument whose pattern has no open-run marker and whose length
differs from the actual shape, or whose pattern has exactly one open-run
marker with prefix and suffix together longer than the actual shape, is only
recorded as a dimension-count mismatch: the state is otherwise untouched, so
no wildcard binding and no exact check comes from it; and when prefix plus
suffix exactly exhaust the actual shape the count check passes. -/
theorem C3_count_check (name : String) (pat : List EDim) (actual : List Nat) (st : UState) :
    (EDim.ellip ∉ pat → pat.length ≠ actual.length →
      process_tensor name pat actual st
        = Except.ok (UState.mk st.exacts_good st.wildcards (st.mismatches ++ [name])))
    ∧ (∀ pre suf, pat = pre ++ EDim.ellip :: suf → EDim.ellip ∉ pre → EDim.ellip ∉ suf →
        actual.length < pre.length + suf.length →
        process_tensor name pat actual st
          = Except.ok (UState.mk st.exacts_good st.wildcards (st.mismatches ++ [name])))
    ∧ (∀ pre suf, pat = pre ++ EDim.ellip :: suf → EDim.ellip ∉ pre → EDim.ellip ∉ suf →
        pre.length + suf.length = actual.length →
        ∃ st1, process_tensor name pat actual st = Except.ok st1
          ∧ st1.mismatches = st.mismatches) := by
  refine ⟨?_, ?_, ?_⟩
  · intro hmem hlen
    simp only [process_tensor, if_pos hmem, if_pos hlen]
  · intro pre suf heq hpre hsuf hlt
    subst heq
    rw [process_tensor_split name pre suf actual st hpre hsuf, if_pos (by omega)]
  · intro pre suf heq hpre hsuf hE
    subst heq
    have hcount : (pre ++ EDim.ellip :: suf).count EDim.ellip ≤ 1 :=
      le_of_eq (count_split_one pre suf hpre hsuf)
    obtain ⟨st1, he, _, hm, _, _⟩ := process_tensor_ok name _ actual st hcount
    refine ⟨st1, he, ?_⟩
    rw [hm, count_mismatch_split pre suf actual hpre]
    have hng : ¬ (pre.length + suf.length > actual.length) := by omega
    simp [hng]

theorem C3_count_check_witness :
    process_tensor "t" [EDim.exact 2] [1, 2] initState
      = Except.ok (UState.mk initState.exacts_good initState.wildcards
          (initState.mismatches ++ ["t"]))
    ∧ process_tensor "u" [EDim.exact 1, EDim.ellip, EDim.exact 2] [5] initState
      = Except.ok (UState.mk initState.exacts_good initState.wildcards
          (initState.mismatches ++ ["u"]))
    ∧ ∃ st1, process_tensor "v" [EDim.exact 1, EDim.ellip, EDim.exact 2] [1, 2] initState
        = Except.ok st1 ∧ st1.mismatches = initState.mismatches :=
  ⟨(C3_count_check "t" [EDim.exact 2] [1, 2] initState).1 (by decide) (by decide),
   (C3_count_check "u" [EDim.exact 1, EDim.ellip, EDim.exact 2] [5] initState).2.1
     [EDim.exact 1] [EDim.exact 2] (by decide) (by decide) (by decide) (by decide),
   (C3_count_check "v" [EDim.exact 1, EDim.ellip, EDim.exact 2] [1, 2] initState).2.2
     [EDim.exact 1] [EDim.exact 2] (by decide) (by decide) (by decide) (by decide)⟩

/-- C9: the atomic unifier treats the open-run marker as an unreachable-state
defect, and in every call whose patterns each hold at most one open-run
marker the whole unification pass succeeds, so the unreachable branch is
never executed. -/
theorem C9_assert_never_unreachable (ts : List (String × List EDim × List Nat))
    (h : ∀ t ∈ ts, (t.2.1).count EDim.ellip ≤ 1) :
    (∀ (a : Nat) (st : UState), unify_dim EDim.ellip a st
        = Except.error (PyExc.assertionError "Expected code to be unreachable"))
    ∧ ∀ st : UState, ∃ st1, run_unify ts st = Except.ok st1 := by
  refine ⟨fun a st => rfl, fun st => ?_⟩
  obtain ⟨st1, he, _⟩ := run_unify_ok ts st h
  exact ⟨st1, he⟩

theorem C9_assert_never_unreachable_witness :
    ∃ st1, run_unify
        [("y", [EDim.exact 2, EDim.ellip, EDim.wild "N", EDim.exact 5], [2, 7, 8, 9, 5])]
        initState = Except.ok st1 :=
  (C9_assert_never_unreachable
    [("y", [EDim.exact 2, EDim.ellip, EDim.wild "N", EDim.exact 5], [2, 7, 8, 9, 5])]
    (by decide)).2 initState

/-- C8: every wildcard token occurrence that is unified records exactly the
one actual value it was paired with, and after any successful unification
pass every label present in the binding table holds a non-empty set of
observed values, no matter which arguments were count-mismatched. -/
theorem C8_nonempty_bindings (ts : List (String × List EDim × List Nat)) (st : UState)
    (hrun : run_unify ts initState = Except.ok st) :
    (∀ l vs, (l, vs) ∈ st.wildcards → vs ≠ [])
    ∧ ∀ (ws : List (String × List Nat)) (l : String) (v : Nat),
        ∃ st1, unify_dim (EDim.wild l) v (UState.mk true ws []) = Except.ok st1
          ∧ v ∈ lookup_set st1.wildcards l := by
  constructor
  · have hinv : WSInv st.wildcards :=
      run_unify_inv ts initState st hrun ⟨by simp [initState], by simp [initState]⟩
    exact fun l vs hmem => (hinv.2 (l, vs) hmem).1
  · intro ws l v
    refine ⟨UState.mk true (add_binding ws l v) [], rfl, ?_⟩
    exact (mem_lookup_add ws l v l v).mpr (Or.inl ⟨rfl, rfl⟩)

theorem C8_nonempty_bindings_witness :
    ([4, 3] : List Nat) ≠ []
    ∧ ∃ st1, unify_dim (EDim.wild "N") 3 (UState.mk true [] []) = Except.ok st1
        ∧ 3 ∈ lookup_set st1.wildcards "N" :=
  ⟨(C8_nonempty_bindings [("a", [EDim.wild "N"], [3]), ("b", [EDim.wild "N"], [4])]
      (UState.mk true [("N", [4, 3])] []) (by rfl)).1 "N" [4, 3] (by decide),
   (C8_nonempty_bindings [("a", [EDim.wild "N"], [3]), ("b", [EDim.wild "N"], [4])]
      (UState.mk true [("N", [4, 3])] []) (by rfl)).2 [] "N" 3⟩

/-- C4: after the whole unification pass, a wildcard label is reported as
inconsistent exactly when its binding set received two distinct values from
the checked positions of the arguments, the same or different ones; a label
all of whose occurrences observed the identical value, a single occurrence
included, is consistent. -/
theorem C4_wildcard_consistency (ts : List (String × List EDim × List Nat)) (st : UState)
    (hell : ∀ t ∈ ts, (t.2.1).count EDim.ellip ≤ 1)
    (hrun : run_unify ts initState = Except.ok st) :
    ∀ l, l ∈ inconsistent_wildcards st.wildcards ↔
      ∃ v w, (∃ t ∈ ts, (EDim.wild l, v) ∈ checked_pairs t.2.1 t.2.2)
        ∧ (∃ t ∈ ts, (EDim.wild l, w) ∈ checked_pairs t.2.1 t.2.2) ∧ v ≠ w := by
  obtain ⟨st1, he, hg, hm, hbind, hwinv⟩ := run_unify_ok ts initState hell
  rw [hrun] at he
  injection he with he
  subst he
  have hinv : WSInv st.wildcards := hwinv ⟨by simp [initState], by simp [initState]⟩
  have hlk : ∀ l x, x ∈ lookup_set st.wildcards l ↔
      ∃ t ∈ ts, (EDim.wild l, x) ∈ checked_pairs t.2.1 t.2.2 := by
    intro l x
    rw [hbind l x]
    simp [initState, lookup_set]
  intro l
  rw [inconsistent_iff _ _ hinv]
  constructor
  · rintro ⟨a, b2, ha, hb2, hab⟩
    exact ⟨a, b2, (hlk l a).mp ha, (hlk l b2).mp hb2, hab⟩
  · rintro ⟨v, w, hv, hw2, hvw⟩
    exact ⟨v, w, (hlk l v).mpr hv, (hlk l w).mpr hw2, hvw⟩

theorem C4_wildcard_consistency_witness :
    "N" ∈ inconsistent_wildcards (UState.mk true [("N", [4, 3])] []).wildcards ↔
      ∃ v w, (∃ t ∈ [("a", [EDim.wild "N"], [3]), ("b", [EDim.wild "N"], [4])],
          (EDim.wild "N", v) ∈ checked_pairs t.2.1 t.2.2)
        ∧ (∃ t ∈ [("a", [EDim.wild "N"], [3]), ("b", [EDim.wild "N"], [4])],
            (EDim.wild "N", w) ∈ checked_pairs t.2.1 t.2.2) ∧ v ≠ w :=
  C4_wildcard_consistency [("a", [EDim.wild "N"], [3]), ("b", [EDim.wild "N"], [4])]
    (UState.mk true [("N", [4, 3])] []) (by decide) (by rfl) "N"

theorem run_sizes_decision (params : List String) (argShape : String → Option (List Nat))
    (decls : List (String × List EDim))
    (hell : ∀ d ∈ decls, (d.2).count EDim.ellip ≤ 1)
    (hall : ∀ d ∈ decls, d.1 ∈ params ∧ (argShape d.1).isSome) :
    (run_sizes params argShape decls = Except.ok () ↔
      ((∀ d ∈ decls, count_mismatch d.2 ((argShape d.1).getD []) = false)
        ∧ (∀ d ∈ decls, (checked_pairs d.2 ((argShape d.1).getD [])).all exact_ok = true)
        ∧ (∀ l v w,
            (∃ d ∈ decls, (EDim.wild l, v) ∈ checked_pairs d.2 ((argShape d.1).getD [])) →
            (∃ d ∈ decls, (EDim.wild l, w) ∈ checked_pairs d.2 ((argShape d.1).getD [])) →
            v = w)))
    ∧ (run_sizes params argShape decls = Except.ok ()
        ∨ ∃ msg, run_sizes params argShape decls = Except.error (PyExc.valueError msg)) := by
  have hcol := collect_ok params argShape decls hall
  have hellc : ∀ t ∈ decls.map (fun d => (d.1, d.2, (argShape d.1).getD [])),
      (t.2.1).count EDim.ellip ≤ 1 := by
    intro t ht
    simp only [List.mem_map] at ht
    obtain ⟨d, hd, rfl⟩ := ht
    exact hell d hd
  obtain ⟨st, hrun, hg, hm, hbind, hwinv⟩ :=
    run_unify_ok (decls.map (fun d => (d.1, d.2, (argShape d.1).getD []))) initState hellc
  have hstinv : WSInv st.wildcards := hwinv ⟨by simp [initState], by simp [initState]⟩
  have hg2 : st.exacts_good = (decls.map (fun d => (d.1, d.2, (argShape d.1).getD []))).all
      (fun t => (checked_pairs t.2.1 t.2.2).all exact_ok) := by
    rw [hg]
    simp [initState]
  have hm2 : st.mismatches = ((decls.map (fun d => (d.1, d.2, (argShape d.1).getD []))).filter
      (fun t => count_mismatch t.2.1 t.2.2)).map Prod.fst := by
    rw [hm]
    simp [initState]
  have hb2 : ∀ l x, x ∈ lookup_set st.wildcards l ↔
      ∃ d ∈ decls, (EDim.wild l, x) ∈ checked_pairs d.2 ((argShape d.1).getD []) := by
    intro l x
    rw [hbind l x]
    constructor
    · rintro (hf | ⟨t, ht, hcp⟩)
      · simp [initState, lookup_set] at hf
      · obtain ⟨d, hd, rfl⟩ := List.mem_map.mp ht
        exact ⟨d, hd, hcp⟩
    · rintro ⟨d, hd, hcp⟩
      exact Or.inr ⟨_, List.mem_map.mpr ⟨d, hd, rfl⟩, hcp⟩
  have hA : st.mismatches = [] ↔
      ∀ d ∈ decls, count_mismatch d.2 ((argShape d.1).getD []) = false := by
    rw [hm2, List.map_eq_nil_iff, List.filter_eq_nil_iff]
    constructor
    · intro h d hd
      exact Bool.eq_false_iff.mpr (h _ (List.mem_map.mpr ⟨d, hd, rfl⟩))
    · intro h t ht
      obtain ⟨d, hd, rfl⟩ := List.mem_map.mp ht
      exact Bool.eq_false_iff.mp (h d hd)
  have hB : st.exacts_good = true ↔
      ∀ d ∈ decls, (checked_pairs d.2 ((argShape d.1).getD [])).all exact_ok = true := by
    rw [hg2, List.all_eq_true]
    constructor
    · intro h d hd
      exact h _ (List.mem_map.mpr ⟨d, hd, rfl⟩)
    · intro h t ht
      obtain ⟨d, hd, rfl⟩ := List.mem_map.mp ht
      exact h d hd
  have hC : inconsistent_wildcards st.wildcards = [] ↔
      ∀ l v w,
        (∃ d ∈ decls, (EDim.wild l, v) ∈ checked_pairs d.2 ((argShape d.1).getD [])) →
        (∃ d ∈ decls, (EDim.wild l, w) ∈ checked_pairs d.2 ((argShape d.1).getD [])) →
        v = w := by
    rw [List.eq_nil_iff_forall_not_mem]
    constructor
    · intro hno l v w hv hw2
      by_contra hne
      exact hno l ((inconsistent_iff _ _ hstinv).mpr
        ⟨v, w, (hb2 l v).mpr hv, (hb2 l w).mpr hw2, hne⟩)
    · intro hcons l hl
      obtain ⟨a, b, ha, hb3, hab⟩ := (inconsistent_iff _ _ hstinv).mp hl
      exact hab (hcons l a b ((hb2 l a).mp ha) ((hb2 l b).mp hb3))
  cases hDec : (!st.exacts_good || !st.mismatches.isEmpty
      || !(inconsistent_wildcards st.wildcards).isEmpty) with
  | false =>
    have hok : run_sizes params argShape decls = Except.ok () := by
      rw [run_sizes_eq params argShape decls _ st hcol hrun, hDec]
      simp
    have hsplit : (st.exacts_good = true ∧ st.mismatches = [])
        ∧ inconsistent_wildcards st.wildcards = [] := by
      simpa [List.isEmpty_iff] using hDec
    exact ⟨iff_of_true hok ⟨hA.mp hsplit.1.2, hB.mp hsplit.1.1, hC.mp hsplit.2⟩, Or.inl hok⟩
  | true =>
    have herr : run_sizes params argShape decls = Except.error (PyExc.valueError
        (error_message st (decls.map (fun d => (d.1, d.2, (argShape d.1).getD []))))) := by
      rw [run_sizes_eq params argShape decls _ st hcol hrun, hDec]
      simp
    refine ⟨iff_of_false (by simp [herr]) ?_, Or.inr ⟨_, herr⟩⟩
    rintro ⟨ha, hb4, hc4⟩
    have h1 : st.mismatches = [] := hA.mpr ha
    have h2 : st.exacts_good = true := hB.mpr hb4
    have h3 : inconsistent_wildcards st.wildcards = [] := hC.mpr hc4
    rw [h1, h2, h3] at hDec
    simp at hDec

/-- C5: on acceptance the wrapped callable is invoked on the resolved
arguments unchanged and its result is passed through unmodified; on any
rejection or declaration error the underlying callable is never invoked, so
the outcome is the same error for every underlying callable. -/
theorem C5_forwarding {V R : Type} (shapeOf : V → Option (List Nat)) (params : List String)
    (decls : List (String × List EDim)) (func : (String → V) → R) (args : String → V) :
    (∀ r, sizes_wrapper shapeOf params decls func args = Except.ok r → r = func args)
    ∧ (∀ e, sizes_wrapper shapeOf params decls func args = Except.error e →
        ∀ g : (String → V) → R,
          sizes_wrapper shapeOf params decls g args = Except.error e) := by
  constructor
  · intro r h
    simp only [sizes_wrapper] at h
    cases hrs : run_sizes params (fun n => shapeOf (args n)) decls with
    | error ex =>
      rw [hrs] at h
      exact Except.noConfusion h
    | ok u =>
      rw [hrs] at h
      injection h with h
      exact h.symm
  · intro e h g
    simp only [sizes_wrapper] at h ⊢
    cases hrs : run_sizes params (fun n => shapeOf (args n)) decls with
    | error ex =>
      rw [hrs] at h
      exact h
    | ok u =>
      rw [hrs] at h
      exact Except.noConfusion h

theorem C5_forwarding_witness :
    ([3] : List Nat) = (fun g => g "a") (fun _ => ([3] : List Nat))
    ∧ sizes_wrapper (fun s : List Nat => some s) ["a"] [("a", [EDim.exact 4])]
        (fun g => g "b") (fun _ => [3])
      = Except.error (PyExc.valueError
          "@sizes: Static dims do not match.\n  a: (4\x1b[0;31m=3\x1b[0m)") :=
  ⟨(C5_forwarding (fun s : List Nat => some s) ["a"] [("a", [EDim.exact 3])]
      (fun g => g "a") (fun _ => [3])).1 [3] (by rfl),
   (C5_forwarding (fun s : List Nat => some s) ["a"] [("a", [EDim.exact 4])]
      (fun g => g "a") (fun _ => [3])).2
      (PyExc.valueError "@sizes: Static dims do not match.\n  a: (4\x1b[0;31m=3\x1b[0m)")
      (by rfl) (fun g => g "b")⟩

/-- C6: structural declaration errors precede all shape work: a declared name
that is not a parameter makes the collection pass itself fail, and when every
earlier declaration is well formed the error is exactly the UnknownArgument
message, for every assignment of shapes; a pattern with two or more open-run
markers makes the call fail with exactly the MultipleEllipsis message, for
every assignment of shapes, even ones satisfying all length constraints. -/
theorem C6_declaration_errors (params : List String) (argShape : String → Option (List Nat))
    (decls : List (String × List EDim)) :
    (∀ q pq, (q, pq) ∈ decls → q ∉ params →
      ∃ e, run_sizes params argShape decls = Except.error e
        ∧ collect_tensors params argShape decls = Except.error e)
    ∧ (∀ ds1 q pq ds2, decls = ds1 ++ (q, pq) :: ds2 →
        (∀ d ∈ ds1, d.1 ∈ params ∧ (argShape d.1).isSome) → q ∉ params →
        run_sizes params argShape decls = Except.error (PyExc.valueError
          ("@sizes: Function is missing Tensor argument " ++ q ++ ".")))
    ∧ (∀ q pq, (q, pq) ∈ decls → 2 ≤ pq.count EDim.ellip →
        (∀ d ∈ decls, d.1 ∈ params ∧ (argShape d.1).isSome) →
        run_sizes params argShape decls = Except.error (PyExc.valueError
          "@sizes: Only one ellipsis allowed per shape specification.")) := by
  refine ⟨?_, ?_, ?_⟩
  · intro q pq hmem h
    obtain ⟨e, he⟩ := collect_err_of_unknown params argShape decls q pq hmem h
    exact ⟨e, run_sizes_collect_err params argShape decls e he, he⟩
  · intro ds1 q pq ds2 heq h1 h2
    subst heq
    exact run_sizes_collect_err params argShape _ _
      (collect_unknown_first params argShape ds1 q pq ds2 h1 h2)
  · intro q pq hmem hcnt hall
    have hcol := collect_ok params argShape decls hall
    have hex : ∃ t ∈ decls.map (fun d => (d.1, d.2, (argShape d.1).getD [])),
        2 ≤ (t.2.1).count EDim.ellip :=
      ⟨(q, pq, (argShape q).getD []), List.mem_map.mpr ⟨(q, pq), hmem, rfl⟩, hcnt⟩
    have hrm := run_unify_multi (decls.map (fun d => (d.1, d.2, (argShape d.1).getD [])))
      initState hex
    simp only [run_sizes, hcol, hrm]

theorem C6_declaration_errors_witness :
    (∃ e, run_sizes [] (fun _ => some [1, 2]) [("q", [EDim.exact 1, EDim.exact 2])]
        = Except.error e
      ∧ collect_tensors [] (fun _ => some [1, 2]) [("q", [EDim.exact 1, EDim.exact 2])]
        = Except.error e)
    ∧ run_sizes ["a"] (fun _ => some [3]) [("a", [EDim.exact 3]), ("q", [EDim.exact 1])]
        = Except.error (PyExc.valueError "@sizes: Function is missing Tensor argument q.")
    ∧ run_sizes ["z"] (fun _ => some [1, 2])
        [("z", [EDim.exact 1, EDim.ellip, EDim.exact 2, EDim.ellip])]
        = Except.error (PyExc.valueError
            "@sizes: Only one ellipsis allowed per shape specification.") :=
  ⟨(C6_declaration_errors [] (fun _ => some [1, 2])
      [("q", [EDim.exact 1, EDim.exact 2])]).1 "q" [EDim.exact 1, EDim.exact 2]
      (by decide) (by decide),
   (C6_declaration_errors ["a"] (fun _ => some [3])
      [("a", [EDim.exact 3]), ("q", [EDim.exact 1])]).2.1
      [("a", [EDim.exact 3])] "q" [EDim.exact 1] [] (by decide) (by decide) (by decide),
   (C6_declaration_errors ["z"] (fun _ => some [1, 2])
      [("z", [EDim.exact 1, EDim.ellip, EDim.exact 2, EDim.ellip])]).2.2
      "z" [EDim.exact 1, EDim.ellip, EDim.exact 2, EDim.ellip]
      (by decide) (by decide) (by decide)⟩

/-- C10: every outcome of a wrapped call is either success or a ValueError
carrying only a rendered message string: UnknownArgument, NotShaped,
MultipleEllipsis and the aggregate ShapeMismatch all surface as the same
exception type, so the caller cannot tell them apart by type alone. -/
theorem C10_single_exception_type {V R : Type} (shapeOf : V → Option (List Nat))
    (params : List String) (decls : List (String × List EDim))
    (func : (String → V) → R) (args : String → V) :
    (∃ r, sizes_wrapper shapeOf params decls func args = Except.ok r)
    ∨ (∃ msg, sizes_wrapper shapeOf params decls func args
        = Except.error (PyExc.valueError msg)) := by
  rcases collect_shape params (fun n => shapeOf (args n)) decls with ⟨c, hc⟩ | ⟨m, hc⟩
  · rcases run_unify_shape c initState with ⟨st, hr⟩ | hr
    · cases hB : (!st.exacts_good || !st.mismatches.isEmpty
          || !(inconsistent_wildcards st.wildcards).isEmpty) with
      | true =>
        right
        exact ⟨error_message st c, by simp [sizes_wrapper, run_sizes, hc, hr, hB]⟩
      | false =>
        left
        exact ⟨func args, by simp [sizes_wrapper, run_sizes, hc, hr, hB]⟩
    · right
      exact ⟨"@sizes: Only one ellipsis allowed per shape specification.",
        by simp [sizes_wrapper, run_sizes, hc, hr]⟩
  · right
    exact ⟨m, by simp [sizes_wrapper, run_sizes, hc]⟩

/-- C1: under well-formed declarations (at most one open-run marker per
pattern, every declared name a parameter, every checked argument shaped) the
call is accepted, forwarding to the callable, exactly when no argument fails
the dimension-count check, every checked exact token equals its actual value,
and no wildcard label observes two distinct values; otherwise the call is
rejected with a single ValueError diagnostic. -/
theorem C1_accept_iff {V R : Type} (shapeOf : V → Option (List Nat)) (params : List String)
    (decls : List (String × List EDim)) (func : (String → V) → R) (args : String → V)
    (hell : ∀ d ∈ decls, (d.2).count EDim.ellip ≤ 1)
    (hpar : ∀ d ∈ decls, d.1 ∈ params)
    (hsh : ∀ d ∈ decls, (shapeOf (args d.1)).isSome) :
    (sizes_wrapper shapeOf params decls func args = Except.ok (func args) ↔
      ((∀ d ∈ decls, count_mismatch d.2 (actual_of shapeOf args d.1) = false)
        ∧ (∀ d ∈ decls, (checked_pairs d.2 (actual_of shapeOf args d.1)).all exact_ok = true)
        ∧ (∀ l v w, bound_value shapeOf args decls l v →
            bound_value shapeOf args decls l w → v = w)))
    ∧ (sizes_wrapper shapeOf params decls func args = Except.ok (func args)
       ∨ ∃ msg, sizes_wrapper shapeOf params decls func args
           = Except.error (PyExc.valueError msg)) := by
  have hdec := run_sizes_decision params (fun n => shapeOf (args n)) decls hell
    (fun d hd => ⟨hpar d hd, hsh d hd⟩)
  have hwrap_ok : ∀ u, run_sizes params (fun n => shapeOf (args n)) decls = Except.ok u →
      sizes_wrapper shapeOf params decls func args = Except.ok (func args) := by
    intro u hu
    simp only [sizes_wrapper, hu]
  have hwrap_err : ∀ e, run_sizes params (fun n => shapeOf (args n)) decls = Except.error e →
      sizes_wrapper shapeOf params decls func args = Except.error e := by
    intro e hu
    simp only [sizes_wrapper, hu]
  have hback : sizes_wrapper shapeOf params decls func args = Except.ok (func args) →
      run_sizes params (fun n => shapeOf (args n)) decls = Except.ok () := by
    intro h
    simp only [sizes_wrapper] at h
    cases hrs : run_sizes params (fun n => shapeOf (args n)) decls with
    | error ex =>
      rw [hrs] at h
      exact Except.noConfusion h
    | ok u => rfl
  constructor
  · constructor
    · intro hok
      exact hdec.1.mp (hback hok)
    · intro hcond
      exact hwrap_ok () (hdec.1.mpr hcond)
  · rcases hdec.2 with hr | ⟨msg, hr⟩
    · exact Or.inl (hwrap_ok () hr)
    · exact Or.inr ⟨msg, hwrap_err _ hr⟩

theorem C1_accept_iff_witness :
    sizes_wrapper (fun s : List Nat => some s) ["a"] [("a", [EDim.exact 3])]
      (fun g => g "a") (fun _ => [3]) = Except.ok [3] :=
  (C1_accept_iff (fun s : List Nat => some s) ["a"] [("a", [EDim.exact 3])]
    (fun g => g "a") (fun _ => [3]) (by decide) (by decide) (by decide)).1.mpr
    ⟨by decide, by decide, by
      intro l v w h1 _
      obtain ⟨d, hd, hm⟩ := h1
      simp only [List.mem_singleton] at hd
      subst hd
      have hcp : checked_pairs [EDim.exact 3]
          (actual_of (fun s : List Nat => some s) (fun _ => [3]) "a")
          = [(EDim.exact 3, 3)] := by decide
      rw [hcp] at hm
      simp at hm⟩

/-- C7 counterexample: a rejected call in which argument a has no fault of any
kind (no count mismatch, all exact checks pass, no inconsistent wildcard) yet
the rendered diagnostic contains the detail line for a, refuting the claim
that zero-fault arguments are omitted from the detail list. -/
theorem C7_zero_fault_line_counterexample :
    run_sizes ["a", "b"] (fun n => if n = "a" then some [3, 3] else some [5])
        [("a", [EDim.exact 3, EDim.wild "N"]), ("b", [EDim.exact 4])]
      = Except.error (PyExc.valueError
          "@sizes: Static dims do not match.\n  a: (3,N)\n  b: (4\x1b[0;31m=5\x1b[0m)")
    ∧ count_mismatch [EDim.exact 3, EDim.wild "N"] [3, 3] = false
    ∧ (checked_pairs [EDim.exact 3, EDim.wild "N"] [3, 3]).all exact_ok = true
    ∧ inconsistent_wildcards [("N", [3])] = []
    ∧ "a: (3,N)" ∈ tensor_strings (inconsistent_wildcards [("N", [3])])
        [("a", [EDim.exact 3, EDim.wild "N"], [3, 3]), ("b", [EDim.exact 4], [5])] := by
  refine ⟨by rfl, by rfl, by rfl, by rfl, ?_⟩
  simp [tensor_strings]
  left
  rfl

/-- C7 amended: whenever validation rejects at the decision stage, the
diagnostic's detail section contains one rendered line for every checked
argument, in collection order, whether or not that argument has a fault;
zero-fault arguments are not omitted. -/
theorem C7_detail_lines_amended (params : List String)
    (argShape : String → Option (List Nat)) (decls : List (String × List EDim))
    (collected : List (String × List EDim × List Nat)) (st : UState)
    (hc : collect_tensors params argShape decls = Except.ok collected)
    (hr : run_unify collected initState = Except.ok st)
    (hrej : (!st.exacts_good || !st.mismatches.isEmpty
        || !(inconsistent_wildcards st.wildcards).isEmpty) = true) :
    run_sizes params argShape decls
      = Except.error (PyExc.valueError (error_message st collected))
    ∧ (tensor_strings (inconsistent_wildcards st.wildcards) collected).length
        = collected.length
    ∧ ∀ t ∈ collected,
        render_tensor (inconsistent_wildcards st.wildcards) t.1 t.2.1 t.2.2
          ∈ tensor_strings (inconsistent_wildcards st.wildcards) collected := by
  refine ⟨?_, by simp [tensor_strings], ?_⟩
  · rw [run_sizes_eq params argShape decls collected st hc hr, hrej]
    simp
  · intro t ht
    exact List.mem_map.mpr ⟨t, ht, rfl⟩

theorem C7_detail_lines_amended_witness :
    run_sizes ["a", "b"] (fun n => if n = "a" then some [3, 3] else some [5])
        [("a", [EDim.exact 3, EDim.wild "N"]), ("b", [EDim.exact 4])]
      = Except.error (PyExc.valueError (error_message (UState.mk false [("N", [3])] [])
          [("a", [EDim.exact 3, EDim.wild "N"], [3, 3]), ("b", [EDim.exact 4], [5])]))
    ∧ (tensor_strings
        (inconsistent_wildcards (UState.mk false [("N", [3])] []).wildcards)
        [("a", [EDim.exact 3, EDim.wild "N"], [3, 3]), ("b", [EDim.exact 4], [5])]).length
        = 2
    ∧ ∀ t ∈ [("a", [EDim.exact 3, EDim.wild "N"], [3, 3]), ("b", [EDim.exact 4], [5])],
        render_tensor (inconsistent_wildcards (UState.mk false [("N", [3])] []).wildcards)
          t.1 t.2.1 t.2.2
          ∈ tensor_strings
              (inconsistent_wildcards (UState.mk false [("N", [3])] []).wildcards)
              [("a", [EDim.exact 3, EDim.wild "N"], [3, 3]), ("b", [EDim.exact 4], [5])] :=
  C7_detail_lines_amended ["a", "b"] (fun n => if n = "a" then some [3, 3] else some [5])
    [("a", [EDim.exact 3, EDim.wild "N"]), ("b", [EDim.exact 4])]
    [("a", [EDim.exact 3, EDim.wild "N"], [3, 3]), ("b", [EDim.exact 4], [5])]
    (UState.mk false [("N", [3])] []) (by rfl) (by rfl) (by rfl)

end Jollyqol
